import Mathlib

/-!
Verification of `csvtool` (src/csvtool/csvtool.py) against its specification.

The program is shallowly embedded here.  Text is modelled as `List Char`
(`Field`), a CSV record as `Row := List Field`.  `read_csv` / `write_csv`
delegate in the source to Python's standard `csv` module with the default
dialect (delimiter `,`, quotechar `"`, doublequote, QUOTE_MINIMAL,
lineterminator `"\r\n"`, strict off); that dialect is embedded below as a
faithful transcription of CPython's `_csv` reader state machine and writer
(CPython 3.11: a NUL byte is an ordinary character; a blank line yields an
empty record; stray characters after a bare `\r` are a fatal parse error).
`print(...); sys.exit(1)` failure paths and uncaught `IndexError`s are both
modelled as `Except.error` with the corresponding message, since either way
the operation aborts with no output.  Python's `str.strip`/`str.isdigit`
are modelled on ASCII text (the inputs the tool is specified for).
-/

namespace Csvtool

/-- One CSV field (a Python `str`, as a list of characters). -/
abbrev Field := List Char

/-- One CSV record: an ordered list of fields. -/
abbrev Row := List Field

/-! ### Python string / list primitives used by csvtool -/

/-- Python `str.isspace` on the ASCII whitespace characters
(`str.strip()` with no argument strips exactly these, on ASCII text). -/
def pyIsSpace (c : Char) : Bool :=
  c = ' ' || c = '\t' || c = '\n' || c = '\r' || c = '\x0b' || c = '\x0c'

/-- Python `s.strip()` (restricted to ASCII whitespace). -/
def pyStrip (s : Field) : Field :=
  ((s.dropWhile pyIsSpace).reverse.dropWhile pyIsSpace).reverse

/-- Python `s.isdigit()` (restricted to ASCII digits): nonempty and all digits. -/
def pyIsDigit (s : Field) : Bool :=
  !s.isEmpty && s.all Char.isDigit

/-- Python `int(s)` for a string of decimal digits. -/
def natOfDigits (s : Field) : Nat :=
  s.foldl (fun n c => 10 * n + (c.toNat - 48)) 0

/-- Resolve a Python list index (negative indices count from the end);
`none` is an `IndexError`. -/
def pyIdx (n : Nat) (i : Int) : Option Nat :=
  if 0 ≤ i then
    if i < (n : Int) then some i.toNat else none
  else
    if (-i).toNat ≤ n then some (n - (-i).toNat) else none

/-- Python `l[i]` (with negative indexing); `none` is an `IndexError`. -/
def pyGet (l : List α) (i : Int) : Option α :=
  (pyIdx l.length i).bind (fun j => l[j]?)

/-- Python `l[i] = v` (with negative indexing); `none` is an `IndexError`. -/
def pySet (l : List α) (i : Int) (v : α) : Option (List α) :=
  (pyIdx l.length i).map (fun j => l.set j v)

/-- Python truthiness of an optional list (`if headers:`):
`None` and the empty list are falsy. -/
def pyTruthy (h : Option (List α)) : Bool :=
  match h with
  | some l => !l.isEmpty
  | none => false

/-- Python `l.index(x)` as an option: index of the first occurrence. -/
def pyFindIdx (l : List Field) (x : Field) : Option Nat :=
  l.findIdx? (· == x)

/-- Python `s.split(',')`. -/
def splitComma : List Char → List (List Char)
  | [] => [[]]
  | c :: cs =>
    match splitComma cs with
    | [] => [[]]
    | g :: gs => if c = ',' then [] :: g :: gs else (c :: g) :: gs

/-! ### The CSV writer (csv.writer, default dialect, QUOTE_MINIMAL) -/

/-- A character forcing a field to be quoted under QUOTE_MINIMAL:
the delimiter, the quote character, or a line-terminator character. -/
def isSpecialChar (c : Char) : Bool :=
  c = ',' || c = '"' || c = '\r' || c = '\n'

/-- Does this field need quoting under QUOTE_MINIMAL? -/
def needsQuote (f : Field) : Bool :=
  f.any isSpecialChar

/-- Double every quote character (doublequote dialect option). -/
def escapeQ : List Char → List Char
  | [] => []
  | c :: cs => if c = '"' then '"' :: '"' :: escapeQ cs else c :: escapeQ cs

/-- Serialize one field: quote it exactly when QUOTE_MINIMAL requires. -/
def writeField (f : Field) : List Char :=
  if needsQuote f then '"' :: (escapeQ f ++ ['"']) else f

/-- Serialize one record with the `"\r\n"` terminator.  A record consisting
of a single empty unquoted field is written as `""` (CPython writes a quoted
empty field when the whole record would otherwise be empty). -/
def writeRow (r : Row) : List Char :=
  (if r = [[]] then ['"', '"']
   else List.intercalate [','] (r.map writeField)) ++ ['\r', '\n']

/-- `CSVTool.write_csv` (lines 39-49): the header row is written only when
`headers` is truthy (Python `if headers:`), then every data row. -/
def write_csv (headers : Option Row) (rows : List Row) : List Char :=
  (match headers with
   | some h => if h.isEmpty then [] else writeRow h
   | none => []) ++ rows.flatMap writeRow

/-! ### The CSV reader (csv.reader, default dialect)

CPython's `_csv` reader is a character-level state machine fed one line at
a time (lines split after `'\n'`), with an end-of-line event after each
line; a record is emitted each time that event returns the machine to the
`START_RECORD` state.  We replay exactly that: the character stream of the
input plus an `eol` event after every `'\n'` and at the end of a final
unterminated line. -/

/-- Reader states (CPython `ParserState`; the escape states are unreachable
with the default dialect, which has no escapechar). -/
inductive Mode where
  | startRecord
  | startField
  | inField
  | inQuotedField
  | quoteInQuotedField
  | eatCrnl
deriving Repr, DecidableEq

/-- An input event: a character of the stream, or the end of a line. -/
inductive Ev where
  | ch (c : Char)
  | eol
deriving Repr, DecidableEq

/-- Reader state: current mode, the field and record being accumulated,
and the records emitted so far. -/
structure PState where
  mode : Mode
  field : Field
  row : Row
  recs : List Row
deriving Repr, DecidableEq

/-- Transition for a character seen while expecting a field
(CPython `START_FIELD`; `START_RECORD` falls through to it). -/
def stepStartField (st : PState) (c : Char) : PState :=
  if c = '\n' || c = '\r' then
    { st with mode := .eatCrnl, field := [], row := st.row ++ [st.field] }
  else if c = '"' then
    { st with mode := .inQuotedField }
  else if c = ',' then
    { st with mode := .startField, field := [], row := st.row ++ [st.field] }
  else
    { st with mode := .inField, field := st.field ++ [c] }

/-- One step of the reader state machine.  `none` is the fatal
`csv.Error` ("new-line character seen in unquoted field").  A record is
emitted when an end-of-line event returns the machine to `startRecord`. -/
def step (st : PState) (e : Ev) : Option PState :=
  match e with
  | .eol =>
    match st.mode with
    | .startRecord => some st
    | .startField =>
      some ⟨.startRecord, [], [], st.recs ++ [st.row ++ [st.field]]⟩
    | .inField =>
      some ⟨.startRecord, [], [], st.recs ++ [st.row ++ [st.field]]⟩
    | .inQuotedField => some st
    | .quoteInQuotedField =>
      some ⟨.startRecord, [], [], st.recs ++ [st.row ++ [st.field]]⟩
    | .eatCrnl => some ⟨.startRecord, [], [], st.recs ++ [st.row]⟩
  | .ch c =>
    match st.mode with
    | .startRecord =>
      if c = '\n' || c = '\r' then some { st with mode := .eatCrnl }
      else some (stepStartField st c)
    | .startField => some (stepStartField st c)
    | .inField =>
      if c = '\n' || c = '\r' then
        some { st with mode := .eatCrnl, field := [], row := st.row ++ [st.field] }
      else if c = ',' then
        some { st with mode := .startField, field := [], row := st.row ++ [st.field] }
      else
        some { st with field := st.field ++ [c] }
    | .inQuotedField =>
      if c = '"' then some { st with mode := .quoteInQuotedField }
      else some { st with field := st.field ++ [c] }
    | .quoteInQuotedField =>
      if c = '"' then some { st with mode := .inQuotedField, field := st.field ++ [c] }
      else if c = ',' then
        some { st with mode := .startField, field := [], row := st.row ++ [st.field] }
      else if c = '\n' || c = '\r' then
        some { st with mode := .eatCrnl, field := [], row := st.row ++ [st.field] }
      else
        some { st with mode := .inField, field := st.field ++ [c] }
    | .eatCrnl =>
      if c = '\n' || c = '\r' then some st
      else none

/-- Run the state machine over a list of events. -/
def parseEvs : List Ev → PState → Option PState
  | [], st => some st
  | e :: es, st =>
    match step st e with
    | some st' => parseEvs es st'
    | none => none

/-- Character events of a stream, with an `eol` event after every `'\n'`
(the end of each line handed to the state machine). -/
def rawEvents : List Char → List Ev
  | [] => []
  | c :: cs => Ev.ch c :: (if c = '\n' then Ev.eol :: rawEvents cs else rawEvents cs)

/-- All events of an input: its characters, plus a final `eol` when the
input ends in an unterminated line. -/
def events (cs : List Char) : List Ev :=
  rawEvents cs ++
    (match cs.getLast? with
     | none => []
     | some c => if c = '\n' then [] else [Ev.eol])

/-- End-of-input handling: a field still open inside quotes at EOF is
emitted as a final record (non-strict dialect). -/
def finalize (st : PState) : List Row :=
  if st.mode = .inQuotedField || st.field ≠ [] then
    st.recs ++ [st.row ++ [st.field]]
  else
    st.recs

/-- The initial reader state. -/
def initState : PState := ⟨.startRecord, [], [], []⟩

/-- `list(csv.reader(StringIO(content)))`; `none` is a fatal `csv.Error`. -/
def parseContent (cs : List Char) : Option (List Row) :=
  (parseEvs (events cs) initState).map finalize

/-- `CSVTool.read_csv` (lines 20-37), with the input already read into
`content`: parse, then split off the header row when `has_header` and at
least one record exists. -/
def read_csv (content : List Char) (has_header : Bool) :
    Option (Option Row × List Row) :=
  (parseContent content).map fun rows =>
    match has_header, rows with
    | true, r :: rs => (some r, rs)
    | _, rows' => (none, rows')

/-! ### Error messages (printed to stderr before `sys.exit(1)`) -/

/-- Message for a header name that is not present. -/
def colNotFoundMsg (col : Field) : String :=
  "Column '" ++ String.mk col ++ "' not found"

/-- Message for a name reference without headers. -/
def noHeaderMsg : String := "Cannot use column name without headers"

/-- An uncaught Python `IndexError`. -/
def idxErrMsg : String := "IndexError: list index out of range"

/-! ### Column resolution -/

/-- Column resolution shared verbatim by `CSVTool.search` (lines 133-145)
and `CSVTool.replace` (lines 160-172): a digit string is `int(column) - 1`;
otherwise the name is looked up in the headers (`if headers:` truthiness),
and both failure branches print and exit. -/
def resolveSR (column : Field) (headers : Option Row) : Except String Int :=
  if pyIsDigit column then
    .ok ((natOfDigits column : Int) - 1)
  else if pyTruthy headers then
    match pyFindIdx (headers.getD []) column with
    | some j => .ok (j : Int)
    | none => .error (colNotFoundMsg column)
  else
    .error noHeaderMsg

/-- One column reference of `CSVTool.select_columns` (lines 98-109): the
reference is `strip()`ed first; a non-digit name is looked up only under
`if headers:`, and is silently skipped when headers are falsy. -/
def resolveSelectRef (colRaw : Field) (headers : Option Row) :
    Except String (List Int) :=
  let col := pyStrip colRaw
  if pyIsDigit col then
    .ok [(natOfDigits col : Int) - 1]
  else if pyTruthy headers then
    match pyFindIdx (headers.getD []) col with
    | some j => .ok [(j : Int)]
    | none => .error (colNotFoundMsg col)
  else
    .ok []

/-- Fold `resolveSelectRef` over `columns.split(',')`. -/
def resolveSelectList (headers : Option Row) : List (List Char) → Except String (List Int)
  | [] => .ok []
  | c :: cs =>
    match resolveSelectRef c headers with
    | .error e => .error e
    | .ok a =>
      match resolveSelectList headers cs with
      | .error e => .error e
      | .ok b => .ok (a ++ b)

/-- The column-reference parsing loop of `CSVTool.select_columns`. -/
def resolveSelect (columns : List Char) (headers : Option Row) :
    Except String (List Int) :=
  resolveSelectList headers (splitComma columns)

/-! ### Search -/

/-- The row filter of `CSVTool.search` (lines 148-152): keep a row when
`col_index < len(row)` and the field at `col_index` satisfies the match
predicate `p` (which stands for `re.search(pattern, field)` being a match).
Indexing follows Python semantics, so a negative `i` reaches from the end
and can raise `IndexError`. -/
def filterRows (i : Int) (p : Field → Bool) : List Row → Except String (List Row)
  | [] => .ok []
  | r :: rs =>
    if i < (r.length : Int) then
      match pyGet r i with
      | some f => (filterRows i p rs).map fun rest => if p f then r :: rest else rest
      | none => .error idxErrMsg
    else
      filterRows i p rs

/-- `CSVTool.search` (lines 129-154) after reading: resolve the column,
filter the rows, and hand `(headers if not no_header else None, filtered)`
to `write_csv`. -/
def searchOp (column : Field) (p : Field → Bool) (headers : Option Row)
    (rows : List Row) (no_header : Bool) : Except String (Option Row × List Row) :=
  match resolveSR column headers with
  | .error e => .error e
  | .ok i =>
    match filterRows i p rows with
    | .error e => .error e
    | .ok filtered => .ok (if no_header then none else headers, filtered)

/-! ### Replace -/

/-- The mutation loop of `CSVTool.replace` (lines 175-178): when
`col_index < len(row)` and the field there equals `old`, overwrite it with
`newVal`; all rows are kept in order. -/
def replaceRows (i : Int) (old newVal : Field) : List Row → Except String (List Row)
  | [] => .ok []
  | r :: rs =>
    if i < (r.length : Int) then
      match pyGet r i, pySet r i newVal with
      | some f, some r2 =>
        (replaceRows i old newVal rs).map fun rest =>
          (if f = old then r2 else r) :: rest
      | _, _ => .error idxErrMsg
    else
      (replaceRows i old newVal rs).map fun rest => r :: rest

/-- `CSVTool.replace` (lines 156-180) after reading. -/
def replaceOp (column : Field) (old newVal : Field) (headers : Option Row)
    (rows : List Row) (no_header : Bool) : Except String (Option Row × List Row) :=
  match resolveSR column headers with
  | .error e => .error e
  | .ok i =>
    match replaceRows i old newVal rows with
    | .error e => .error e
    | .ok newRows => .ok (if no_header then none else headers, newRows)

/-! ### Select -/

/-- Header projection of `CSVTool.select_columns` (line 114):
`[headers[i] for i in col_indices if i < len(headers)]`. -/
def projectHeader (h : Row) : List Int → Except String Row
  | [] => .ok []
  | i :: is =>
    if i < (h.length : Int) then
      match pyGet h i with
      | some v => (projectHeader h is).map (v :: ·)
      | none => .error idxErrMsg
    else
      projectHeader h is

/-- Row projection of `CSVTool.select_columns` (lines 119-124): one output
field per requested index, the empty string when `i < len(row)` fails. -/
def projectRow (r : Row) : List Int → Except String Row
  | [] => .ok []
  | i :: is =>
    if i < (r.length : Int) then
      match pyGet r i with
      | some v => (projectRow r is).map (v :: ·)
      | none => .error idxErrMsg
    else
      (projectRow r is).map ([] :: ·)

/-- The row loop of `CSVTool.select_columns` (lines 117-125). -/
def projectRowsAll (is : List Int) : List Row → Except String (List Row)
  | [] => .ok []
  | r :: rs =>
    match projectRow r is with
    | .error e => .error e
    | .ok r1 =>
      match projectRowsAll is rs with
      | .error e => .error e
      | .ok rest => .ok (r1 :: rest)

/-- `CSVTool.select_columns` (lines 111-127) given resolved indices:
project the headers (when truthy and not suppressed) and every row. -/
def selectCore (colIndices : List Int) (headers : Option Row) (rows : List Row)
    (no_header : Bool) : Except String (Option Row × List Row) :=
  match
    (if pyTruthy headers && !no_header then
       (projectHeader (headers.getD []) colIndices).map some
     else
       .ok none : Except String (Option Row)) with
  | .error e => .error e
  | .ok newHeaders =>
    match projectRowsAll colIndices rows with
    | .error e => .error e
    | .ok newRows => .ok (newHeaders, newRows)

/-- `CSVTool.select_columns` (lines 92-127) after reading. -/
def selectOp (columns : List Char) (headers : Option Row) (rows : List Row)
    (no_header : Bool) : Except String (Option Row × List Row) :=
  match resolveSelect columns headers with
  | .error e => .error e
  | .ok is => selectCore is headers rows no_header

/-! ### Readable (tabular) rendering -/

/-- Python `s.ljust(w)`: pad on the right with spaces up to width `w`. -/
def ljust (s : Field) (w : Nat) : Field :=
  s ++ List.replicate (w - s.length) ' '

/-- The inner width loop of `CSVTool.readable` (lines 69-72): the running
maximum of the lengths of the cells present at column `i`. -/
def colWidth (allRows : List Row) (i : Nat) : Nat :=
  allRows.foldl
    (fun m r =>
      match r[i]? with
      | some cell => max m cell.length
      | none => m)
    0

/-- The width table of `CSVTool.readable` (lines 67-73): one width per
column index of the first displayed record. -/
def widthsOf (allRows : List Row) : List Nat :=
  (List.range (allRows.headD []).length).map (colWidth allRows)

/-- The cell loop of `CSVTool.readable` (lines 77-82): pad cells whose
index has a computed width, print later cells unpadded. -/
def formatCells (widths : List Nat) : Nat → Row → List Field
  | _, [] => []
  | i, c :: cs =>
    (match widths[i]? with
     | some w => ljust c w
     | none => c) :: formatCells widths (i + 1) cs

/-- One output line: the formatted cells joined with `" | "` (line 83). -/
def renderLine (widths : List Nat) (r : Row) : Field :=
  List.intercalate [' ', '|', ' '] (formatCells widths 0 r)

/-- The separator line after the header (lines 86-90): `w` dashes per
column, joined with `"-|-"`. -/
def sepLine (widths : List Nat) : Field :=
  List.intercalate ['-', '|', '-'] (widths.map fun w => List.replicate w '-')

/-- The output loop of `CSVTool.readable` (lines 76-90): one line per
displayed record, with the separator emitted after record 0 when the
header is being shown. -/
def renderLoop (widths : List Nat) (showHeader : Bool) : Nat → List Row → List Field
  | _, [] => []
  | idx, r :: rs =>
    renderLine widths r ::
      ((if idx = 0 && showHeader then [sepLine widths] else []) ++
        renderLoop widths showHeader (idx + 1) rs)

/-- `CSVTool.readable` (lines 51-90) after reading: the list of printed
lines (empty when nothing is displayed). -/
def readable (headers : Option Row) (no_header : Bool) (rows : List Row) :
    List Field :=
  if rows.isEmpty && !pyTruthy headers then []
  else
    let allRows :=
      (if pyTruthy headers && !no_header then [headers.getD []] else []) ++ rows
    if allRows.isEmpty then []
    else
      renderLoop (widthsOf allRows) (pyTruthy headers && !no_header) 0 allRows

/-- The whole `readable` command on raw input text: parse with
`has_header = not no_header`, then render. -/
def readableOp (content : List Char) (no_header : Bool) : Option (List Field) :=
  (read_csv content !no_header).map fun hr => readable hr.1 no_header hr.2

/-! ### Spec-side formulations (stated from the specification's words, to be
compared with the embedded code above) -/

/-- Spec's column width: "the maximum text length across all displayed
records at that index" (records with no cell at the index contribute
nothing). -/
def specColWidth (disp : List Row) (i : Nat) : Nat :=
  ((disp.filterMap fun r => r[i]?).map List.length).foldr max 0

/-- Spec's width table: one width per index `0..W-1`, `W` the field count
of the first displayed record. -/
def specWidths (disp : List Row) : List Nat :=
  (List.range (disp.headD []).length).map (specColWidth disp)

/-- Spec's line rendering: each present cell left-justified to its
column's width, cells at indices past the width table unpadded, joined
with `" | "`. -/
def specLine (widths : List Nat) (r : Row) : Field :=
  List.intercalate [' ', '|', ' ']
    (r.enum.map fun ic =>
      match widths[ic.1]? with
      | some w => ljust ic.2 w
      | none => ic.2)

/-- Spec-side readable rendering: nothing displayed gives no output;
otherwise one line per displayed record, with a dash separator line after
the header when the header is displayed. -/
def readableSpec (headers : Option Row) (no_header : Bool) (rows : List Row) :
    List Field :=
  let showHeader := pyTruthy headers && !no_header
  let disp := (if showHeader then [headers.getD []] else []) ++ rows
  if disp.isEmpty then []
  else
    let ws := specWidths disp
    if showHeader then
      specLine ws (headers.getD []) :: sepLine ws :: rows.map (specLine ws)
    else
      disp.map (specLine ws)

/-- Spec-side rendering of the `no-header` display mode, as amended: every
parsed record, the first included, is rendered as an ordinary data row and
no separator line is emitted. -/
def noHeaderSpec (recs : List Row) : List Field :=
  if recs.isEmpty then [] else recs.map (specLine (specWidths recs))

/-! ## Helper lemmas: Python indexing -/

/-- For a nonnegative index, Python indexing is ordinary list lookup. -/
theorem pyGet_nonneg {α} (l : List α) (i : Int) (hi : 0 ≤ i) :
    pyGet l i = l[i.toNat]? := by
  unfold pyGet pyIdx
  rw [if_pos hi]
  by_cases h : i < (l.length : Int)
  · rw [if_pos h]; rfl
  · rw [if_neg h]
    exact (List.getElem?_eq_none (by omega)).symm

/-- For a nonnegative in-bounds index, Python assignment is `List.set`. -/
theorem pySet_nonneg {α} (l : List α) (i : Int) (v : α) (hi : 0 ≤ i)
    (hlt : i < (l.length : Int)) : pySet l i v = some (l.set i.toNat v) := by
  unfold pySet pyIdx
  rw [if_pos hi, if_pos hlt]
  rfl

/-- For index `-1` on a nonempty list, Python indexing is the last element. -/
theorem pyGet_neg_one {α} (l : List α) (hne : l ≠ []) :
    pyGet l (-1) = l.getLast? := by
  unfold pyGet pyIdx
  have hlen : 1 ≤ l.length := by
    cases l with
    | nil => exact absurd rfl hne
    | cons a t => exact Nat.succ_le_succ (Nat.zero_le _)
  rw [if_neg (by omega), if_pos (by omega)]
  rw [List.getLast?_eq_getElem?]
  norm_num

/-- Setting the last element of a nonempty list. -/
theorem set_length_sub_one {α} (l : List α) (v : α) (hne : l ≠ []) :
    l.set (l.length - 1) v = l.dropLast ++ [v] := by
  induction l with
  | nil => exact absurd rfl hne
  | cons a t ih =>
    cases t with
    | nil => rfl
    | cons b t' =>
      have : (a :: b :: t').length - 1 = (b :: t').length - 1 + 1 := by
        simp [List.length_cons]
      rw [this, List.set_cons_succ, ih (by simp)]
      rfl

/-- For index `-1` on a nonempty list, Python assignment replaces the last
element. -/
theorem pySet_neg_one {α} (l : List α) (v : α) (hne : l ≠ []) :
    pySet l (-1) v = some (l.dropLast ++ [v]) := by
  unfold pySet pyIdx
  have hlen : 1 ≤ l.length := by
    cases l with
    | nil => exact absurd rfl hne
    | cons a t => exact Nat.succ_le_succ (Nat.zero_le _)
  rw [if_neg (by omega), if_pos (by omega)]
  show some (l.set (l.length - (-(-1 : Int)).toNat) v) = _
  have h1 : (-(-1 : Int)).toNat = 1 := rfl
  rw [h1, set_length_sub_one l v hne]

/-! ## Helper lemmas: the operations at a nonnegative resolved index -/

/-- The search filter loop at a nonnegative index is `List.filter`. -/
theorem filterRows_nonneg (i : Int) (hi : 0 ≤ i) (p : Field → Bool)
    (rows : List Row) :
    filterRows i p rows =
      .ok (rows.filter fun r => ((r[i.toNat]?).map p).getD false) := by
  induction rows with
  | nil => rfl
  | cons r rs ih =>
    simp only [filterRows]
    by_cases h : i < (r.length : Int)
    · have hlt : i.toNat < r.length := by omega
      rw [if_pos h, pyGet_nonneg _ _ hi, List.getElem?_eq_getElem hlt, ih]
      simp [List.filter_cons, List.getElem?_eq_getElem hlt, Except.map]
    · have hnone : r[i.toNat]? = none := List.getElem?_eq_none (by omega)
      rw [if_neg h, ih]
      simp [List.filter_cons, hnone]

/-- The replace loop at a nonnegative index is `List.map` with a
conditional `List.set`. -/
theorem replaceRows_nonneg (i : Int) (hi : 0 ≤ i) (old nv : Field)
    (rows : List Row) :
    replaceRows i old nv rows =
      .ok (rows.map fun r =>
        if r[i.toNat]? = some old then r.set i.toNat nv else r) := by
  induction rows with
  | nil => rfl
  | cons r rs ih =>
    simp only [replaceRows]
    by_cases h : i < (r.length : Int)
    · have hlt : i.toNat < r.length := by omega
      rw [if_pos h, pyGet_nonneg _ _ hi, List.getElem?_eq_getElem hlt,
        pySet_nonneg _ _ _ hi h, ih]
      simp [List.getElem?_eq_getElem hlt, Except.map]
    · have hnone : r[i.toNat]? = none := List.getElem?_eq_none (by omega)
      rw [if_neg h, ih]
      simp [hnone, Except.map]

/-- Header projection at nonnegative indices is `List.filterMap`:
out-of-bounds indices are skipped. -/
theorem projectHeader_nonneg (h : Row) (is : List Int)
    (hi : ∀ i ∈ is, 0 ≤ i) :
    projectHeader h is = .ok (is.filterMap fun i => h[i.toNat]?) := by
  induction is with
  | nil => rfl
  | cons i it ih =>
    have hi0 : 0 ≤ i := hi i (List.mem_cons_self i it)
    have hit : ∀ j ∈ it, 0 ≤ j := fun j hj => hi j (List.mem_cons_of_mem _ hj)
    simp only [projectHeader]
    by_cases hb : i < (h.length : Int)
    · have hlt : i.toNat < h.length := by omega
      rw [if_pos hb, pyGet_nonneg _ _ hi0, List.getElem?_eq_getElem hlt, ih hit]
      simp [List.filterMap_cons, List.getElem?_eq_getElem hlt, Except.map]
    · have hnone : h[i.toNat]? = none := List.getElem?_eq_none (by omega)
      rw [if_neg hb, ih hit]
      simp [List.filterMap_cons, hnone]

/-- Row projection at nonnegative indices is `List.map` with an
empty-string default: one output field per requested index. -/
theorem projectRow_nonneg (r : Row) (is : List Int)
    (hi : ∀ i ∈ is, 0 ≤ i) :
    projectRow r is = .ok (is.map fun i => (r[i.toNat]?).getD []) := by
  induction is with
  | nil => rfl
  | cons i it ih =>
    have hi0 : 0 ≤ i := hi i (List.mem_cons_self i it)
    have hit : ∀ j ∈ it, 0 ≤ j := fun j hj => hi j (List.mem_cons_of_mem _ hj)
    simp only [projectRow]
    by_cases hb : i < (r.length : Int)
    · have hlt : i.toNat < r.length := by omega
      rw [if_pos hb, pyGet_nonneg _ _ hi0, List.getElem?_eq_getElem hlt, ih hit]
      simp [List.getElem?_eq_getElem hlt, Except.map]
    · have hnone : r[i.toNat]? = none := List.getElem?_eq_none (by omega)
      rw [if_neg hb, ih hit]
      simp [hnone, Except.map]

/-- The row loop of select at nonnegative indices. -/
theorem projectRowsAll_nonneg (is : List Int) (hi : ∀ i ∈ is, 0 ≤ i)
    (rows : List Row) :
    projectRowsAll is rows =
      .ok (rows.map fun r => is.map fun i => (r[i.toNat]?).getD []) := by
  induction rows with
  | nil => rfl
  | cons r rs ih =>
    simp only [projectRowsAll]
    rw [projectRow_nonneg r is hi, ih]
    rfl

/-! ## Helper lemmas: the operations at index `-1` -/

/-- A nonempty list has a last element. -/
theorem getLast?_of_ne_nil {α} (l : List α) (hne : l ≠ []) :
    ∃ v, l.getLast? = some v := by
  cases hlv : l.getLast? with
  | none => exact absurd (List.getLast?_eq_none_iff.mp hlv) hne
  | some v => exact ⟨v, rfl⟩

/-- The search filter loop at index `-1`, on nonempty rows, filters by the
last field. -/
theorem filterRows_neg_one (p : Field → Bool) (rows : List Row)
    (h : ∀ r ∈ rows, r ≠ []) :
    filterRows (-1) p rows =
      .ok (rows.filter fun r => (r.getLast?.map p).getD false) := by
  induction rows with
  | nil => rfl
  | cons r rs ih =>
    have hr : r ≠ [] := h r (List.mem_cons_self r rs)
    have hrs : ∀ x ∈ rs, x ≠ [] := fun x hx => h x (List.mem_cons_of_mem _ hx)
    obtain ⟨v, hv⟩ := getLast?_of_ne_nil r hr
    simp only [filterRows]
    rw [if_pos (by omega), pyGet_neg_one r hr, hv, ih hrs]
    simp [List.filter_cons, hv, Except.map]

/-- The replace loop at index `-1`, on nonempty rows, conditionally
replaces the last field. -/
theorem replaceRows_neg_one (old nv : Field) (rows : List Row)
    (h : ∀ r ∈ rows, r ≠ []) :
    replaceRows (-1) old nv rows =
      .ok (rows.map fun r =>
        if r.getLast? = some old then r.dropLast ++ [nv] else r) := by
  induction rows with
  | nil => rfl
  | cons r rs ih =>
    have hr : r ≠ [] := h r (List.mem_cons_self r rs)
    have hrs : ∀ x ∈ rs, x ≠ [] := fun x hx => h x (List.mem_cons_of_mem _ hx)
    obtain ⟨v, hv⟩ := getLast?_of_ne_nil r hr
    simp only [replaceRows]
    rw [if_pos (by omega), pyGet_neg_one r hr, hv, pySet_neg_one r nv hr, ih hrs]
    simp [hv, Except.map]

/-- Select's row projection at the single index `-1`, on a nonempty row,
picks the last field. -/
theorem projectRow_neg_one (r : Row) (hr : r ≠ []) :
    projectRow r [-1] = .ok [r.getLast?.getD []] := by
  obtain ⟨v, hv⟩ := getLast?_of_ne_nil r hr
  simp only [projectRow]
  rw [if_pos (by omega), pyGet_neg_one r hr, hv]
  simp [projectRow, hv, Except.map]

/-! ## Helper lemmas: the writer/reader round trip -/

/-- Running the machine over concatenated event lists is sequential
composition. -/
theorem parseEvs_append (a b : List Ev) (st : PState) :
    parseEvs (a ++ b) st =
      match parseEvs a st with
      | some st' => parseEvs b st'
      | none => none := by
  induction a generalizing st with
  | nil => rfl
  | cons e es ih =>
    simp only [List.cons_append, parseEvs]
    cases step st e with
    | none => rfl
    | some st' => exact ih st'

/-- Events of concatenated streams concatenate. -/
theorem rawEvents_append (a b : List Char) :
    rawEvents (a ++ b) = rawEvents a ++ rawEvents b := by
  induction a with
  | nil => rfl
  | cons c cs ih =>
    by_cases h : c = '\n' <;> simp [rawEvents, h, ih]

/-- Unpacking `isSpecialChar c = false`. -/
theorem not_special {c : Char} (h : isSpecialChar c = false) :
    ¬c = ',' ∧ ¬c = '"' ∧ ¬c = '\r' ∧ ¬c = '\n' := by
  simp only [isSpecialChar, Bool.or_eq_false_iff, decide_eq_false_iff_not] at h
  exact ⟨h.1.1.1, h.1.1.2, h.1.2, h.2⟩

/-- A non-special character is accumulated in an unquoted field. -/
theorem step_inField_plain (c : Char) (h : isSpecialChar c = false)
    (fld : Field) (row : Row) (recs : List Row) :
    step ⟨.inField, fld, row, recs⟩ (.ch c) =
      some ⟨.inField, fld ++ [c], row, recs⟩ := by
  obtain ⟨h1, h2, h3, h4⟩ := not_special h
  simp [step, h1, h3, h4]

/-- A non-special character starts an unquoted field. -/
theorem step_startField_plain (c : Char) (h : isSpecialChar c = false)
    (fld : Field) (row : Row) (recs : List Row) :
    step ⟨.startField, fld, row, recs⟩ (.ch c) =
      some ⟨.inField, fld ++ [c], row, recs⟩ := by
  obtain ⟨h1, h2, h3, h4⟩ := not_special h
  simp [step, stepStartField, h1, h2, h3, h4]

/-- Any character but the quote is accumulated inside a quoted field. -/
theorem step_inQuoted_other (c : Char) (hq : ¬c = '"')
    (fld : Field) (row : Row) (recs : List Row) :
    step ⟨.inQuotedField, fld, row, recs⟩ (.ch c) =
      some ⟨.inQuotedField, fld ++ [c], row, recs⟩ := by
  simp [step, hq]

/-- Plain characters accumulate across an unquoted field body. -/
theorem rt_plain_inField (f : List Char)
    (hf : ∀ c ∈ f, isSpecialChar c = false)
    (fld : Field) (row : Row) (recs : List Row) :
    parseEvs (rawEvents f) ⟨.inField, fld, row, recs⟩ =
      some ⟨.inField, fld ++ f, row, recs⟩ := by
  induction f generalizing fld with
  | nil => simp [rawEvents, parseEvs]
  | cons c cs ih =>
    have hc := hf c (List.mem_cons_self c cs)
    have hcs : ∀ x ∈ cs, isSpecialChar x = false :=
      fun x hx => hf x (List.mem_cons_of_mem _ hx)
    obtain ⟨h1, h2, h3, h4⟩ := not_special hc
    simp only [rawEvents, if_neg h4, parseEvs, step_inField_plain c hc]
    rw [ih hcs]
    simp

/-- The escaped body of a quoted field accumulates to the original field
(a doubled quote becomes one quote; line breaks are consumed in place). -/
theorem rt_quoted (f : List Char) (fld : Field) (row : Row) (recs : List Row) :
    parseEvs (rawEvents (escapeQ f)) ⟨.inQuotedField, fld, row, recs⟩ =
      some ⟨.inQuotedField, fld ++ f, row, recs⟩ := by
  induction f generalizing fld with
  | nil => simp [escapeQ, rawEvents, parseEvs]
  | cons c cs ih =>
    by_cases hq : c = '"'
    · subst hq
      show parseEvs (rawEvents ('"' :: '"' :: escapeQ cs)) _ = _
      simp only [rawEvents, if_neg (by decide : ¬('"' = '\n'))]
      show parseEvs (Ev.ch '"' :: Ev.ch '"' :: rawEvents (escapeQ cs)) _ = _
      show parseEvs (rawEvents (escapeQ cs)) ⟨.inQuotedField, fld ++ ['"'], row, recs⟩ = _
      rw [ih]
      simp
    · by_cases hn : c = '\n'
      · subst hn
        show parseEvs (rawEvents ('\n' :: escapeQ cs)) _ = _
        simp only [rawEvents, if_pos rfl]
        show parseEvs (Ev.ch '\n' :: Ev.eol :: rawEvents (escapeQ cs)) _ = _
        show parseEvs (rawEvents (escapeQ cs))
          ⟨.inQuotedField, fld ++ ['\n'], row, recs⟩ = _
        rw [ih]
        simp
      · show parseEvs (rawEvents (if c = '"' then _ else c :: escapeQ cs)) _ = _
        rw [if_neg hq]
        simp only [rawEvents, if_neg hn, parseEvs, step_inQuoted_other c hq]
        rw [ih]
        simp

/-- Consuming a serialized quoted field from `startField` ends just after
its closing quote. -/
theorem rt_consume_quoted (f : Field) (hq : needsQuote f = true)
    (row : Row) (recs : List Row) :
    parseEvs (rawEvents (writeField f)) ⟨.startField, [], row, recs⟩ =
      some ⟨.quoteInQuotedField, f, row, recs⟩ := by
  unfold writeField
  rw [if_pos hq]
  show parseEvs (rawEvents ('"' :: (escapeQ f ++ ['"']))) _ = _
  simp only [rawEvents, if_neg (by decide : ¬('"' = '\n'))]
  show parseEvs (Ev.ch '"' :: rawEvents (escapeQ f ++ ['"'])) _ = _
  show parseEvs (rawEvents (escapeQ f ++ ['"']))
    ⟨.inQuotedField, [], row, recs⟩ = _
  rw [rawEvents_append, parseEvs_append, rt_quoted]
  show parseEvs (rawEvents ['"']) ⟨.inQuotedField, [] ++ f, row, recs⟩ = _
  simp [rawEvents, parseEvs, step]

/-- Consuming a serialized unquoted nonempty field from `startField` ends
inside the field. -/
theorem rt_consume_plain (f : Field) (hq : needsQuote f = false) (hne : f ≠ [])
    (row : Row) (recs : List Row) :
    parseEvs (rawEvents (writeField f)) ⟨.startField, [], row, recs⟩ =
      some ⟨.inField, f, row, recs⟩ := by
  have hall : ∀ c ∈ f, isSpecialChar c = false := by
    unfold needsQuote at hq
    exact fun c hc => Bool.not_eq_true _ ▸ List.any_eq_false.mp hq c hc
  cases f with
  | nil => exact absurd rfl hne
  | cons c cs =>
    have hc := hall c (List.mem_cons_self c cs)
    have hcs : ∀ x ∈ cs, isSpecialChar x = false :=
      fun x hx => hall x (List.mem_cons_of_mem _ hx)
    obtain ⟨h1, h2, h3, h4⟩ := not_special hc
    unfold writeField
    rw [if_neg (by simp [hq])]
    simp only [rawEvents, if_neg h4, parseEvs, step_startField_plain c hc]
    rw [rt_plain_inField cs hcs]
    simp

/-- After a serialized field and a delimiter, the machine is back at
`startField` with the field recorded. -/
theorem rt_field_comma (f : Field) (row : Row) (recs : List Row)
    (rest : List Ev) :
    parseEvs (rawEvents (writeField f) ++ Ev.ch ',' :: rest)
        ⟨.startField, [], row, recs⟩ =
      parseEvs rest ⟨.startField, [], row ++ [f], recs⟩ := by
  rw [parseEvs_append]
  by_cases hq : needsQuote f = true
  · rw [rt_consume_quoted f hq]
    rfl
  · have hq' : needsQuote f = false := by simpa using hq
    by_cases hne : f = []
    · subst hne
      rfl
    · rw [rt_consume_plain f hq' hne]
      rfl

/-- After a serialized field and the record terminator, the machine is
back at `startRecord` with the whole record emitted. -/
theorem rt_field_end (f : Field) (row : Row) (recs : List Row)
    (rest : List Ev) :
    parseEvs (rawEvents (writeField f) ++ Ev.ch '\r' :: Ev.ch '\n' :: Ev.eol :: rest)
        ⟨.startField, [], row, recs⟩ =
      parseEvs rest ⟨.startRecord, [], [], recs ++ [row ++ [f]]⟩ := by
  rw [parseEvs_append]
  by_cases hq : needsQuote f = true
  · rw [rt_consume_quoted f hq]
    rfl
  · have hq' : needsQuote f = false := by simpa using hq
    by_cases hne : f = []
    · subst hne
      rfl
    · rw [rt_consume_plain f hq' hne]
      rfl

/-- Peeling one element off an intercalation. -/
theorem intercalate_cons_cons (sep : List Char) (x : List Char)
    (y : List Char) (zs : List (List Char)) :
    List.intercalate sep (x :: y :: zs) =
      x ++ sep ++ List.intercalate sep (y :: zs) := by
  simp [List.intercalate, List.intersperse]

/-- Consuming a whole serialized nonempty field sequence ends the
record. -/
theorem rt_fields (f : Field) (ft : List Field) (row : Row)
    (recs : List Row) (rest : List Ev) :
    parseEvs
        (rawEvents (List.intercalate [','] ((f :: ft).map writeField)) ++
          Ev.ch '\r' :: Ev.ch '\n' :: Ev.eol :: rest)
        ⟨.startField, [], row, recs⟩ =
      parseEvs rest ⟨.startRecord, [], [], recs ++ [row ++ (f :: ft)]⟩ := by
  induction ft generalizing f row with
  | nil =>
    rw [show List.intercalate [','] ([f].map writeField) = writeField f from by
      simp [List.intercalate, List.intersperse]]
    exact rt_field_end f row recs rest
  | cons g gt ih =>
    have hIc : List.intercalate [','] ((f :: g :: gt).map writeField) =
        writeField f ++ [','] ++
          List.intercalate [','] ((g :: gt).map writeField) := by
      rw [List.map_cons]
      exact intercalate_cons_cons [','] (writeField f) (writeField g)
        (gt.map writeField)
    rw [hIc, rawEvents_append, rawEvents_append,
      show rawEvents [','] = [Ev.ch ','] from rfl,
      List.append_assoc, List.append_assoc, List.singleton_append,
      rt_field_comma f row recs _, ih g (row ++ [f])]
    simp

/-- Before any input of a record, `startRecord` treats a non-newline
character exactly as `startField` does. -/
theorem rt_bridge (c : Char) (hn : ¬c = '\n') (hr : ¬c = '\r')
    (es : List Ev) (recs : List Row) :
    parseEvs (Ev.ch c :: es) ⟨.startRecord, [], [], recs⟩ =
      parseEvs (Ev.ch c :: es) ⟨.startField, [], [], recs⟩ := by
  have hstep : step ⟨.startRecord, [], [], recs⟩ (.ch c) =
      step ⟨.startField, [], [], recs⟩ (.ch c) := by
    simp only [step]
    rw [if_neg (by simp [hn, hr])]
    rfl
  simp only [parseEvs, hstep]

/-- The serialized body of a record other than `[""]` starts with a
character that is not a line break. -/
theorem rt_body_head (f : Field) (ft : List Field) (h1 : f :: ft ≠ [[]]) :
    ∃ c cs, List.intercalate [','] ((f :: ft).map writeField) = c :: cs ∧
      ¬c = '\n' ∧ ¬c = '\r' := by
  obtain ⟨t, ht⟩ : ∃ t,
      List.intercalate [','] ((f :: ft).map writeField) = writeField f ++ t := by
    cases ft with
    | nil =>
      refine ⟨[], ?_⟩
      simp [List.intercalate, List.intersperse]
    | cons g gt =>
      refine ⟨[','] ++ List.intercalate [','] ((g :: gt).map writeField), ?_⟩
      simp only [List.map_cons]
      rw [intercalate_cons_cons [','] (writeField f) (writeField g)
        (gt.map writeField)]
      simp [List.append_assoc]
  by_cases hfe : f = []
  · subst hfe
    have hft : ft ≠ [] := fun hc => h1 (by rw [hc])
    obtain ⟨g, gt, rfl⟩ := List.exists_cons_of_ne_nil hft
    refine ⟨',', List.intercalate [','] ((g :: gt).map writeField), ?_,
      by decide, by decide⟩
    simp only [List.map_cons]
    rw [show writeField [] = [] from rfl,
      intercalate_cons_cons [','] [] (writeField g) (gt.map writeField)]
    rfl
  · by_cases hq : needsQuote f = true
    · refine ⟨'"', escapeQ f ++ ['"'] ++ t, ?_, by decide, by decide⟩
      rw [ht]
      unfold writeField
      rw [if_pos hq]
      simp
    · have hq' : needsQuote f = false := by simpa using hq
      have hall : ∀ x ∈ f, isSpecialChar x = false := by
        unfold needsQuote at hq'
        exact fun x hx => Bool.not_eq_true _ ▸ List.any_eq_false.mp hq' x hx
      obtain ⟨c0, cs0, rfl⟩ := List.exists_cons_of_ne_nil hfe
      have hc0 := not_special (hall c0 (List.mem_cons_self c0 cs0))
      refine ⟨c0, cs0 ++ t, ?_, hc0.2.2.2, hc0.2.2.1⟩
      rw [ht]
      unfold writeField
      rw [if_neg (by simp [hq'])]
      rfl

/-- Consuming one serialized record from `startRecord` appends exactly
that record. -/
theorem rt_row (r : Row) (recs : List Row) (rest : List Ev) :
    parseEvs (rawEvents (writeRow r) ++ rest) ⟨.startRecord, [], [], recs⟩ =
      parseEvs rest ⟨.startRecord, [], [], recs ++ [r]⟩ := by
  by_cases h0 : r = []
  · subst h0
    rfl
  · by_cases h1 : r = [[]]
    · subst h1
      rfl
    · cases r with
      | nil => exact absurd rfl h0
      | cons f ft =>
        unfold writeRow
        rw [if_neg h1, rawEvents_append,
          show rawEvents ['\r', '\n'] = [Ev.ch '\r', Ev.ch '\n', Ev.eol] from rfl,
          List.append_assoc]
        obtain ⟨c, cs, hI, hn, hr⟩ := rt_body_head f ft h1
        rw [hI, show rawEvents (c :: cs) = Ev.ch c :: rawEvents cs from by
          simp [rawEvents, hn], List.cons_append, rt_bridge c hn hr,
          ← List.cons_append, show Ev.ch c :: rawEvents cs = rawEvents (c :: cs) from by
          simp [rawEvents, hn], ← hI]
        have := rt_fields f ft [] recs rest
        simpa using this

/-- Consuming a serialized record sequence appends exactly those
records. -/
theorem rt_rows (l : List Row) (recs : List Row) :
    parseEvs (rawEvents (l.flatMap writeRow)) ⟨.startRecord, [], [], recs⟩ =
      some ⟨.startRecord, [], [], recs ++ l⟩ := by
  induction l generalizing recs with
  | nil => simp [rawEvents, parseEvs]
  | cons r rs ih =>
    rw [List.flatMap_cons, rawEvents_append, rt_row r recs _, ih (recs ++ [r])]
    simp

/-- Every serialized record ends with the line feed. -/
theorem writeRow_getLast (r : Row) : (writeRow r).getLast? = some '\n' := by
  unfold writeRow
  exact List.getLast?_append_of_ne_nil _ (by decide)

/-- A nonempty serialized record sequence ends with the line feed. -/
theorem flatMap_writeRow_getLast (l : List Row) (hne : l ≠ []) :
    (l.flatMap writeRow).getLast? = some '\n' := by
  induction l with
  | nil => exact absurd rfl hne
  | cons r rs ih =>
    cases rs with
    | nil => simpa using writeRow_getLast r
    | cons s st =>
      rw [List.flatMap_cons]
      rw [List.getLast?_append_of_ne_nil _ ?hne]
      · exact ih (by simp)
      case hne =>
        intro hc
        have := rt_rows (s :: st) []
        rw [hc] at this
        simp [rawEvents, parseEvs] at this

/-- Parsing a serialized record sequence recovers exactly the records. -/
theorem rt_parse_flatMap (l : List Row) :
    parseContent (l.flatMap writeRow) = some l := by
  cases l with
  | nil => rfl
  | cons r rs =>
    unfold parseContent events
    rw [flatMap_writeRow_getLast (r :: rs) (by simp)]
    show Option.map finalize
      (parseEvs (rawEvents ((r :: rs).flatMap writeRow) ++ []) initState) = _
    rw [List.append_nil,
      show initState = (⟨.startRecord, [], [], []⟩ : PState) from rfl,
      rt_rows (r :: rs) []]
    rfl

/-- `write_csv` with a truthy header serializes the header record first. -/
theorem write_csv_some (h : Row) (rows : List Row) (hne : h ≠ []) :
    write_csv (some h) rows = (h :: rows).flatMap writeRow := by
  have hemp : h.isEmpty = false := by
    cases h with
    | nil => exact absurd rfl hne
    | cons a t => rfl
  unfold write_csv
  rw [List.flatMap_cons]
  congr 1
  show (if h.isEmpty = true then [] else writeRow h) = writeRow h
  simp [hemp]

/-! ## Readable helper lemmas -/

/-- Folding `max` from the left equals `max` of the accumulator and the
right fold. -/
theorem foldl_max_eq (l : List Nat) (a : Nat) :
    l.foldl max a = max a (l.foldr max 0) := by
  induction l generalizing a with
  | nil => simp
  | cons x xs ih =>
    simp only [List.foldl_cons, List.foldr_cons, ih (max a x), Nat.max_assoc]

/-- The width loop over the rows is a fold of `max` over the lengths of
the cells present at the index. -/
theorem colWidth_acc (i : Nat) (rs : List Row) (a : Nat) :
    rs.foldl
      (fun m r =>
        match r[i]? with
        | some cell => max m cell.length
        | none => m) a =
    ((rs.filterMap fun r => r[i]?).map List.length).foldl max a := by
  induction rs generalizing a with
  | nil => rfl
  | cons r rs ih =>
    cases h : r[i]? with
    | none => simp [List.foldl_cons, h, List.filterMap_cons, ih]
    | some cell => simp [List.foldl_cons, h, List.filterMap_cons, ih]

/-- The code's per-column width equals the spec's maximum over present
cells. -/
theorem colWidth_eq_spec (rs : List Row) (i : Nat) :
    colWidth rs i = specColWidth rs i := by
  unfold colWidth specColWidth
  rw [colWidth_acc, foldl_max_eq]
  simp

/-- The code's width table equals the spec's. -/
theorem widthsOf_eq_spec (rs : List Row) : widthsOf rs = specWidths rs := by
  unfold widthsOf specWidths
  exact List.map_congr_left fun i _ => colWidth_eq_spec rs i

/-- The cell loop is the enumerated map of the spec's line rendering. -/
theorem formatCells_eq (widths : List Nat) (r : Row) (k : Nat) :
    formatCells widths k r =
      (List.enumFrom k r).map fun ic =>
        match widths[ic.1]? with
        | some w => ljust ic.2 w
        | none => ic.2 := by
  induction r generalizing k with
  | nil => rfl
  | cons c cs ih =>
    simp only [formatCells, List.enumFrom, List.map_cons, ih (k + 1)]

/-- The code's line rendering equals the spec's. -/
theorem renderLine_eq_spec (widths : List Nat) (r : Row) :
    renderLine widths r = specLine widths r := by
  unfold renderLine specLine
  rw [formatCells_eq]
  rfl

/-- Without a displayed header, the output loop renders one plain line per
record. -/
theorem renderLoop_no_sep (widths : List Nat) (rows : List Row) (idx : Nat) :
    renderLoop widths false idx rows = rows.map (renderLine widths) := by
  induction rows generalizing idx with
  | nil => rfl
  | cons r rs ih => simp [renderLoop, ih]

/-- From index 1 on, the output loop renders one plain line per record. -/
theorem renderLoop_tail (widths : List Nat) (sh : Bool) (rows : List Row)
    (idx : Nat) :
    renderLoop widths sh (idx + 1) rows = rows.map (renderLine widths) := by
  induction rows generalizing idx with
  | nil => rfl
  | cons r rs ih => simp [renderLoop, ih]

/-- The rendering of `CSVTool.readable` coincides with the rendering the
specification describes. -/
theorem readable_eq_readableSpec (headers : Option Row) (nh : Bool)
    (rows : List Row) :
    readable headers nh rows = readableSpec headers nh rows := by
  by_cases ht : pyTruthy headers = true
  · obtain ⟨hd, rfl⟩ : ∃ hd, headers = some hd := by
      cases headers with
      | none => exact absurd ht (by simp [pyTruthy])
      | some hd => exact ⟨hd, rfl⟩
    cases nh with
    | true =>
      simp only [readable, readableSpec, ht, Bool.true_and, Bool.not_true,
        Bool.and_false, Bool.false_and, if_false, Bool.and_true,
        Bool.and_self, List.nil_append]
      cases rows with
      | nil => simp
      | cons r rs =>
        simp [renderLoop_no_sep, widthsOf_eq_spec,
          List.map_congr_left fun x _ => renderLine_eq_spec _ x]
    | false =>
      simp only [readable, readableSpec, ht, Bool.not_false, Bool.and_true,
        if_true, Bool.true_and]
      simp only [List.singleton_append, List.isEmpty_cons, if_false,
        Bool.and_false, Bool.false_eq_true]
      have : (rows.isEmpty && !true) = false := by simp
      simp only [Bool.not_true, Bool.and_false, Bool.false_eq_true, if_false]
      rw [widthsOf_eq_spec]
      simp only [renderLoop, if_pos rfl]
      rw [renderLoop_tail]
      simp [renderLine_eq_spec,
        List.map_congr_left fun x _ => renderLine_eq_spec _ x]
  · have ht' : pyTruthy headers = false := by
      cases h : pyTruthy headers
      · rfl
      · exact absurd h ht
    simp only [readable, readableSpec, ht', Bool.false_and, if_false,
      List.nil_append, Bool.not_eq_true]
    cases rows with
    | nil => simp
    | cons r rs =>
      simp [renderLoop_no_sep, widthsOf_eq_spec,
        List.map_congr_left fun x _ => renderLine_eq_spec _ x]

/-- With the `no-header` flag, rendering parsed records is the spec-side
all-data rendering. -/
theorem readable_none_true (recs : List Row) :
    readable none true recs = noHeaderSpec recs := by
  rw [readable_eq_readableSpec]
  unfold readableSpec noHeaderSpec
  cases recs with
  | nil => rfl
  | cons r rs => simp [pyTruthy]

/-! ## The claims -/

/-- Claim C1 counterexample: a RecordSet with an EMPTY header (reachable:
parsing input whose first line is blank yields header `[]`) does not
round-trip — `write_csv` skips a falsy header (`if headers:`), so
re-parsing under the same header flag promotes the first data row to the
header. -/
theorem C1_counterexample :
    read_csv (write_csv (some []) [[['x']]]) (some ([] : Row)).isSome =
      some (some [['x']], []) ∧
    read_csv (write_csv (some []) [[['x']]]) (some ([] : Row)).isSome ≠
      some (some [], [[['x']]]) := by
  refine ⟨rfl, fun h => ?_⟩
  rw [show read_csv (write_csv (some []) [[['x']]]) (some ([] : Row)).isSome =
      some (some [['x']], []) from rfl] at h
  exact absurd h (by decide)

/-- Claim C1 (amended): every RecordSet whose header, when present, is
nonempty round-trips exactly through `write_csv` and `read_csv` under the
same header flag — fields, rows and header presence are all preserved. -/
theorem C1_roundtrip (headers : Option Row) (rows : List Row)
    (hh : ∀ hd, headers = some hd → hd ≠ []) :
    read_csv (write_csv headers rows) headers.isSome = some (headers, rows) := by
  cases headers with
  | none =>
    show read_csv (rows.flatMap writeRow) false = _
    unfold read_csv
    rw [rt_parse_flatMap]
    cases rows with
    | nil => rfl
    | cons r rs => rfl
  | some h =>
    have hne : h ≠ [] := hh h rfl
    rw [show (some h).isSome = true from rfl, write_csv_some h rows hne]
    unfold read_csv
    rw [rt_parse_flatMap]
    rfl

/-- Claim C1 witness: a concrete round trip exercising quoting (embedded
delimiter, quote and line break), an empty row and an empty field. -/
theorem C1_roundtrip_witness :
    (∀ hd, (some [['h'], ['i', 'd']] : Option Row) = some hd → hd ≠ []) ∧
    read_csv
        (write_csv (some [['h'], ['i', 'd']])
          [[['a', ',', 'b'], ['c', '"', 'd']], [], [[]], [['x', '\n', 'y']]])
        (some [['h'], ['i', 'd']] : Option Row).isSome =
      some (some [['h'], ['i', 'd']],
        [[['a', ',', 'b'], ['c', '"', 'd']], [], [[]], [['x', '\n', 'y']]]) :=
  ⟨fun hd h => by cases h; decide,
   C1_roundtrip (some [['h'], ['i', 'd']])
     [[['a', ',', 'b'], ['c', '"', 'd']], [], [[]], [['x', '\n', 'y']]]
     (fun hd h => by cases h; decide)⟩

/-- Claim C2 counterexample: with headers absent and the non-numeric
column reference "name", Select does NOT fail with a resolution error; it
silently skips the reference and produces output (one empty row per input
row). -/
theorem C2_counterexample :
    selectOp ['n', 'a', 'm', 'e'] none [[['x']]] false =
      .ok (none, [[]]) := rfl

/-- Claim C2 (amended): Search and Replace fail with the resolution error
both when headers are falsy (message "Cannot use column name without
headers") and when the name is missing from truthy headers (message
"Column '...' not found"), fatally (the whole operation returns the error,
no partial output); Select fails only in the missing-name case and
silently skips a name reference when headers are falsy. -/
theorem C2_resolution_errors :
    (∀ (col : Field) (headers : Option Row),
      pyIsDigit col = false → pyTruthy headers = false →
      resolveSR col headers = .error noHeaderMsg) ∧
    (∀ (col : Field) (h : Row),
      pyIsDigit col = false → h ≠ [] → pyFindIdx h col = none →
      resolveSR col (some h) = .error (colNotFoundMsg col)) ∧
    (∀ (col : Field) (p : Field → Bool) (headers : Option Row)
        (rows : List Row) (nh : Bool) (msg : String),
      resolveSR col headers = .error msg →
      searchOp col p headers rows nh = .error msg) ∧
    (∀ (col old nv : Field) (headers : Option Row) (rows : List Row)
        (nh : Bool) (msg : String),
      resolveSR col headers = .error msg →
      replaceOp col old nv headers rows nh = .error msg) ∧
    (∀ (colRaw : Field) (headers : Option Row),
      pyIsDigit (pyStrip colRaw) = false → pyTruthy headers = false →
      resolveSelectRef colRaw headers = .ok []) ∧
    (∀ (colRaw : Field) (h : Row),
      pyIsDigit (pyStrip colRaw) = false → h ≠ [] →
      pyFindIdx h (pyStrip colRaw) = none →
      resolveSelectRef colRaw (some h) =
        .error (colNotFoundMsg (pyStrip colRaw))) ∧
    (∀ (columns : List Char) (headers : Option Row) (rows : List Row)
        (nh : Bool) (msg : String),
      resolveSelect columns headers = .error msg →
      selectOp columns headers rows nh = .error msg) := by
  refine ⟨?_, ?_, ?_, ?_, ?_, ?_, ?_⟩
  · intro col headers hd ht
    simp [resolveSR, hd, ht]
  · intro col h hd hne hf
    have ht : pyTruthy (some h) = true := by
      simp [pyTruthy, hne]
    simp [resolveSR, hd, ht, hf]
  · intro col p headers rows nh msg hres
    simp only [searchOp, hres]
  · intro col old nv headers rows nh msg hres
    simp only [replaceOp, hres]
  · intro colRaw headers hd ht
    simp [resolveSelectRef, hd, ht]
  · intro colRaw h hd hne hf
    have ht : pyTruthy (some h) = true := by
      simp [pyTruthy, hne]
    simp [resolveSelectRef, hd, ht, hf]
  · intro columns headers rows nh msg hres
    simp only [selectOp, hres]

/-- Claim C2 witness: the amended behaviour at concrete inputs. -/
theorem C2_resolution_errors_witness :
    resolveSR ['x'] none = .error noHeaderMsg ∧
    searchOp ['x'] (fun _ => true) (some [['a']]) [[['v']]] false =
      .error (colNotFoundMsg ['x']) :=
  ⟨C2_resolution_errors.1 ['x'] none (by decide) (by decide),
   C2_resolution_errors.2.2.1 ['x'] (fun _ => true) (some [['a']]) [[['v']]]
     false (colNotFoundMsg ['x']) rfl⟩

/-- Claim C3 counterexample: at the resolved column index `-1` (produced by
the numeric reference "0") and an empty row, Select raises an uncaught
`IndexError` instead of producing any projected output. -/
theorem C3_counterexample :
    selectCore [-1] none [[]] false = .error idxErrMsg ∧
    selectCore [-1] none [[]] false ≠ .ok (none, [[[]]]) := by
  refine ⟨rfl, fun h => ?_⟩
  rw [show selectCore [-1] none [[]] false = Except.error idxErrMsg from rfl] at h
  exact Except.noConfusion h

/-- Claim C3 (amended to nonnegative resolved indices): Select projects
the truthy, unsuppressed header to the selected indices skipping indices
out of bounds for the header, projects every row with the empty string for
indices beyond the row, and every output row has exactly one field per
requested column. -/
theorem C3_select_projection (colIndices : List Int)
    (hi : ∀ i ∈ colIndices, 0 ≤ i) (headers : Option Row) (rows : List Row)
    (nh : Bool) :
    selectCore colIndices headers rows nh =
      .ok
        ((if pyTruthy headers && !nh then
            some (colIndices.filterMap fun i => (headers.getD [])[i.toNat]?)
          else none),
         rows.map fun r => colIndices.map fun i => (r[i.toNat]?).getD []) ∧
    ∀ r : Row,
      (colIndices.map fun i => (r[i.toNat]?).getD []).length =
        colIndices.length := by
  constructor
  · simp only [selectCore]
    by_cases hs : pyTruthy headers && !nh
    · rw [if_pos hs, projectHeader_nonneg _ _ hi,
        projectRowsAll_nonneg _ hi, if_pos hs]
      rfl
    · rw [if_neg hs, projectRowsAll_nonneg _ hi, if_neg hs]
  · intro r
    exact List.length_map _ _

/-- Claim C3 witness: the amended projection at a concrete input
(the spec's own example `select -c 1,5` on a 2-column, 1-row table). -/
theorem C3_select_projection_witness :
    (∀ i ∈ [(0 : Int), 4], 0 ≤ i) ∧
    selectCore [0, 4] (some [['a'], ['b']]) [[['1'], ['2']]] false =
      .ok
        ((if pyTruthy (some [['a'], ['b']]) && !false then
            some ([(0 : Int), 4].filterMap fun i =>
              ((some [['a'], ['b']] : Option Row).getD [])[i.toNat]?)
          else none),
         [[['1'], ['2']]].map fun r =>
           [(0 : Int), 4].map fun i => (r[i.toNat]?).getD []) :=
  ⟨by decide,
   (C3_select_projection [0, 4] (by decide) (some [['a'], ['b']])
     [[['1'], ['2']]] false).1⟩

/-- Claim C4 counterexample: at the resolved index `-1` (reference "0")
and an empty row, Search raises an uncaught `IndexError` instead of
filtering. -/
theorem C4_counterexample :
    searchOp ['0'] (fun _ => true) none [[], [['a']]] false =
      .error idxErrMsg ∧
    searchOp ['0'] (fun _ => true) none [[], [['a']]] false ≠
      .ok (none, [[], [['a']]]) := by
  refine ⟨rfl, fun h => ?_⟩
  rw [show searchOp ['0'] (fun _ => true) none [[], [['a']]] false =
      Except.error idxErrMsg from rfl] at h
  exact Except.noConfusion h

/-- Claim C4 (amended to a nonnegative resolved index): Search keeps
exactly the rows long enough to have the field at the index whose field
there satisfies the match predicate (standing for the unanchored
`re.search`), in their input order. -/
theorem C4_search_filter (column : Field) (p : Field → Bool)
    (headers : Option Row) (rows : List Row) (nh : Bool) (i : Int)
    (hres : resolveSR column headers = .ok i) (hi : 0 ≤ i) :
    searchOp column p headers rows nh =
      .ok (if nh then none else headers,
           rows.filter fun r => ((r[i.toNat]?).map p).getD false) := by
  simp only [searchOp, hres, filterRows_nonneg i hi p rows]

/-- Claim C4 witness: the spec's own example, pattern `^a` on the fruit
column (the predicate holds for fields starting with `a`). -/
theorem C4_search_filter_witness :
    resolveSR ['1'] (some ["fruit".toList, "id".toList]) = Except.ok 0 ∧
    searchOp ['1'] (fun f => f.headD ' ' == 'a')
        (some ["fruit".toList, "id".toList])
        [["apple".toList, ['1']], ["banana".toList, ['2']],
         ["avocado".toList, ['3']]] false =
      .ok (if false then none else some ["fruit".toList, "id".toList],
           [["apple".toList, ['1']], ["banana".toList, ['2']],
            ["avocado".toList, ['3']]].filter fun r =>
             ((r[(0 : Int).toNat]?).map fun f => f.headD ' ' == 'a').getD false) :=
  ⟨rfl,
   C4_search_filter ['1'] (fun f => f.headD ' ' == 'a')
     (some ["fruit".toList, "id".toList])
     [["apple".toList, ['1']], ["banana".toList, ['2']],
      ["avocado".toList, ['3']]] false 0 rfl (by decide)⟩

/-- Claim C5 counterexample: at the resolved index `-1` (reference "0")
and an empty row, Replace raises an uncaught `IndexError` instead of
emitting all rows. -/
theorem C5_counterexample :
    replaceOp ['0'] ['x'] ['y'] none [[]] false = .error idxErrMsg ∧
    replaceOp ['0'] ['x'] ['y'] none [[]] false ≠ .ok (none, [[]]) := by
  refine ⟨rfl, fun h => ?_⟩
  rw [show replaceOp ['0'] ['x'] ['y'] none [[]] false =
      Except.error idxErrMsg from rfl] at h
  exact Except.noConfusion h

/-- Claim C5 (amended to a nonnegative resolved index): Replace overwrites
the field at the index with the new value exactly in the rows where that
field exists and equals the old value (full-string equality); all other
rows pass through unchanged, and all rows are emitted in order. -/
theorem C5_replace_exact (column old nv : Field) (headers : Option Row)
    (rows : List Row) (nh : Bool) (i : Int)
    (hres : resolveSR column headers = .ok i) (hi : 0 ≤ i) :
    replaceOp column old nv headers rows nh =
      .ok (if nh then none else headers,
           rows.map fun r =>
             if r[i.toNat]? = some old then r.set i.toNat nv else r) := by
  simp only [replaceOp, hres, replaceRows_nonneg i hi old nv rows]

/-- Claim C5 witness: the spec's own example — replacing `Bob` by `Robert`
in the `name` column updates the exact match and leaves `Bobby` alone. -/
theorem C5_replace_exact_witness :
    resolveSR "name".toList (some ["name".toList]) = Except.ok 0 ∧
    replaceOp "name".toList "Bob".toList "Robert".toList
        (some ["name".toList]) [["Bob".toList], ["Bobby".toList]] false =
      .ok (if false then none else some ["name".toList],
           [["Bob".toList], ["Bobby".toList]].map fun r =>
             if r[(0 : Int).toNat]? = some "Bob".toList then
               r.set (0 : Int).toNat "Robert".toList
             else r) :=
  ⟨rfl,
   C5_replace_exact "name".toList "Bob".toList "Robert".toList
     (some ["name".toList]) [["Bob".toList], ["Bobby".toList]] false 0
     rfl (by decide)⟩

/-- Claim C6 counterexample: with the `no-header` flag on input
`"a,b\r\n1,2\r\n"`, whose first record would otherwise be the header, the
first record is NOT omitted from the output — it is rendered as an
ordinary data row (`"a | b"`), so the output is not just `"1 | 2"`. -/
theorem C6_counterexample :
    readableOp "a,b\r\n1,2\r\n".toList true =
      some ["a | b".toList, "1 | 2".toList] ∧
    readableOp "a,b\r\n1,2\r\n".toList true ≠ some ["1 | 2".toList] := by
  refine ⟨rfl, fun h => ?_⟩
  rw [show readableOp "a,b\r\n1,2\r\n".toList true =
      some ["a | b".toList, "1 | 2".toList] from rfl] at h
  simp at h

/-- Claim C6 (amended): the `no-header` flag makes the first record be
parsed as data rather than as a header: no header line and no separator
line are rendered, and every parsed record — the first included — is
rendered as an ordinary data row. -/
theorem C6_noheader_flag (content : List Char) (recs : List Row)
    (hp : parseContent content = some recs) :
    readableOp content true = some (noHeaderSpec recs) := by
  unfold readableOp read_csv
  rw [hp]
  simp only [Option.map_some', Bool.not_true]
  cases recs with
  | nil => rfl
  | cons r rs =>
    show some (readable none true (r :: rs)) = _
    rw [readable_none_true]

/-- Claim C6 witness: the amended rendering on concrete input. -/
theorem C6_noheader_flag_witness :
    parseContent "x,y\r\n".toList = some [[['x'], ['y']]] ∧
    readableOp "x,y\r\n".toList true = some (noHeaderSpec [[['x'], ['y']]]) :=
  ⟨by decide, C6_noheader_flag "x,y\r\n".toList [[['x'], ['y']]] (by decide)⟩

/-- Claim C7: the readable rendering is exactly as specified — per-column
widths over indices `0..W-1` (`W` the field count of the first displayed
record) are the maxima of the lengths of the cells present at the index;
each line is its present cells left-justified to those widths joined with
`" | "` (cells at indices at or past `W` unpadded); a dash separator line
(`w` dashes per column, joined with `"-|-"`) follows the header when it is
displayed; and nothing is rendered when there is nothing to display. -/
theorem C7_readable_rendering (headers : Option Row) (no_header : Bool)
    (rows : List Row) :
    readable headers no_header rows = readableSpec headers no_header rows :=
  readable_eq_readableSpec headers no_header rows

/-- Claim C8 counterexample: the claimed rendering (both widths 2) is not
what the code produces — the width of the first column is
`max (len "a") (len "1") = 1`, not 2. -/
theorem C8_counterexample :
    readable (some ["a".toList, "bb".toList]) false [["1".toList, "22".toList]] ≠
      ["a  | bb".toList, "---|---".toList, "1  | 22".toList] := by decide

/-- Claim C8 (amended): on header `["a","bb"]` and row `["1","22"]` the
column widths are 1 and 2 (each the longer of the header cell and the
data cell in that column), so the rendering is `"a | bb"`, `"--|---"`,
`"1 | 22"`. -/
theorem C8_readable_example :
    readable (some ["a".toList, "bb".toList]) false [["1".toList, "22".toList]] =
      ["a | bb".toList, "--|---".toList, "1 | 22".toList] := by decide

/-- Claim C9: the numeric reference "0" resolves to index `-1` in Search,
Replace and Select; with that index the three operations act on the last
field of every nonempty row (Python negative indexing passes the
`col_index < len(row)` guard), and on an empty row the unguarded access
raises `IndexError`. -/
theorem C9_zero_reference :
    (∀ headers : Option Row, resolveSR ['0'] headers = .ok (-1)) ∧
    (∀ headers : Option Row, resolveSelect ['0'] headers = .ok [-1]) ∧
    (∀ (p : Field → Bool) (rows : List Row), (∀ r ∈ rows, r ≠ []) →
      filterRows (-1) p rows =
        .ok (rows.filter fun r => (r.getLast?.map p).getD false)) ∧
    (∀ (old nv : Field) (rows : List Row), (∀ r ∈ rows, r ≠ []) →
      replaceRows (-1) old nv rows =
        .ok (rows.map fun r =>
          if r.getLast? = some old then r.dropLast ++ [nv] else r)) ∧
    (∀ r : Row, r ≠ [] → projectRow r [-1] = .ok [r.getLast?.getD []]) ∧
    searchOp ['0'] (fun _ => true) none [[]] false = .error idxErrMsg ∧
    replaceOp ['0'] [] [] none [[]] false = .error idxErrMsg ∧
    selectOp ['0'] none [[]] false = .error idxErrMsg :=
  ⟨fun _ => rfl, fun _ => rfl, filterRows_neg_one, replaceRows_neg_one,
   projectRow_neg_one, rfl, rfl, rfl⟩

/-- Claim C9 witness: index `-1` filtering on concrete nonempty rows. -/
theorem C9_zero_reference_witness :
    (∀ r ∈ [[['a', 'b']], [['c'], ['d', 'e']]], r ≠ ([] : Row)) ∧
    filterRows (-1) (fun f => f.length == 2) [[['a', 'b']], [['c'], ['d', 'e']]] =
      .ok ([[['a', 'b']], [['c'], ['d', 'e']]].filter fun r =>
        (r.getLast?.map fun f => f.length == 2).getD false) :=
  ⟨by decide,
   C9_zero_reference.2.2.1 (fun f => f.length == 2)
     [[['a', 'b']], [['c'], ['d', 'e']]] (by decide)⟩

/-- Claim C10: Select strips whitespace around each comma-separated column
reference before classifying it (so " 1 " is the numeric index 1, resolved
to 0), while Search and Replace use the reference verbatim (so " 1" is not
all digits and is treated as a column name, failing lookup). -/
theorem C10_column_ref_whitespace :
    (∀ headers : Option Row, resolveSelect " 1 ".toList headers = .ok [0]) ∧
    resolveSR " 1".toList (some [['1']]) = .error (colNotFoundMsg " 1".toList) ∧
    resolveSR " 1".toList none = .error noHeaderMsg :=
  ⟨fun _ => rfl, rfl, rfl⟩

end Csvtool
